import Mathlib

/-!
Verification of the toolpath optimization passes of `vm/optimize.go`
(repository gocnc).

The embedding is shallow: machine coordinates and feedrates are modelled as
exact rationals (the Go source uses float64; every operation the claims
depend on is arithmetic, comparison or copying, and the two places the
source calls `math.Sqrt` feed only order comparisons, where the squared
quantity is order-equivalent because `sqrt` is strictly monotone on
nonnegative reals).  Each Go pass that mutates `vm.posStack` in place is
embedded as a pure function from the old stack to the new one; a pass that
can fail (panic recovered into an error, or an explicit error return)
becomes a function into `Except OptError`.
-/

set_option maxHeartbeats 1000000
set_option maxRecDepth 100000

/-- Move modes of a `Position`.  The source distinguishes `moveModeRapid`
and `moveModeLinear`; every other mode (arcs and the like) is opaque to the
optimizer, so all of them are collapsed into the single constructor
`moveModeOther` here. -/
inductive MoveMode where
  | moveModeRapid : MoveMode
  | moveModeLinear : MoveMode
  | moveModeOther : MoveMode
deriving DecidableEq, Repr

export MoveMode (moveModeRapid moveModeLinear moveModeOther)

/-- Modelled from the spec: the per-record machine state carried by each
move (mode, feedrate, spindle fields, data model of section 3).  The Go
struct itself lives outside the provided source file. -/
structure State where
  moveMode : MoveMode
  feedrate : ℚ
  spindleEnabled : Bool
  spindleClockwise : Bool
  spindleSpeed : ℚ
deriving DecidableEq, Repr

/-- Modelled from the spec: one record of the position stack — absolute
target coordinates plus the machine state (data model of section 3). -/
structure Position where
  x : ℚ
  y : ℚ
  z : ℚ
  state : State
deriving DecidableEq, Repr

/-- A default position used only as the `headD`/`getD` fallback where the
Go source would panic on an out-of-range index; every such access is
guarded so the fallback is never observable. -/
def nullPos : Position :=
  { x := 0, y := 0, z := 0,
    state := { moveMode := moveModeRapid, feedrate := 0,
               spindleEnabled := false, spindleClockwise := false,
               spindleSpeed := 0 } }

/-- Modelled from the spec: the machine context owns the position stack and
the coordinate tolerance (data model of section 3). -/
structure Machine where
  posStack : List Position
  tolerance : ℚ
deriving DecidableEq, Repr

/-- Errors surfaced by the fallible passes.  The Go source produces them as
recovered panic strings ("Complex z-motion detected", "Multiple drill
feedrates detected", "Unable to detect safety height", "Unable to detect
drill feedrate", "Incomplete final drill set", runtime index panics) or as
an `errors.New` value naming the conflicting lower feed height. -/
inductive OptError where
  | complexZMotion : OptError
  | multipleDrillFeedrates : OptError
  | safetyHeightUndetected : OptError
  | drillFeedrateUndetected : OptError
  | incompleteFinalSet : OptError
  | indexOutOfRange : OptError
  | safetyHeightConflict : ℚ → OptError
deriving DecidableEq, Repr

/-- Projection used to state error facts without equality on `Except`. -/
def errOf {ε α : Type} : Except ε α → Option ε
  | .error e => some e
  | .ok _ => none

/-- `true` exactly on `Except.ok`. -/
def isOkE {ε α : Type} : Except ε α → Bool
  | .ok _ => true
  | .error _ => false

/-! ## 4.5 Feed/spindle normalization (`LimitFeedrate`, `FeedrateMultiplier`,
`EnforceSpindle`) -/

/-- `Machine.LimitFeedrate`: clamp every feedrate above `feed` to `feed`. -/
def LimitFeedrate (feed : ℚ) (stack : List Position) : List Position :=
  stack.map fun m =>
    if m.state.feedrate > feed then { m with state := { m.state with feedrate := feed } } else m

/-- `Machine.FeedrateMultiplier`: multiply every feedrate by the factor. -/
def FeedrateMultiplier (feedMultiplier : ℚ) (stack : List Position) : List Position :=
  stack.map fun m =>
    { m with state := { m.state with feedrate := m.state.feedrate * feedMultiplier } }

/-- `Machine.EnforceSpindle`: overwrite spindle speed/enabled/clockwise on
every record. -/
def EnforceSpindle (enabled clockwise : Bool) (speed : ℚ) (stack : List Position) : List Position :=
  stack.map fun m =>
    { m with state := { m.state with spindleSpeed := speed, spindleEnabled := enabled, spindleClockwise := clockwise } }

/-! ## 4.3 Lift-speed promotion (`OptLiftSpeed`) -/

/-- Loop body of `Machine.OptLiftSpeed`: any move with unchanged x/y and
strictly increasing z gets its mode set to `moveModeRapid` (the source
checks no mode at all); `lx, ly, lz` is the previous move's target,
starting from the zero values of the Go locals. -/
def optLiftGo (lx ly lz : ℚ) : List Position → List Position
  | [] => []
  | m :: rest =>
    (if m.x = lx ∧ m.y = ly ∧ m.z > lz
     then { m with state := { m.state with moveMode := moveModeRapid } } else m)
      :: optLiftGo m.x m.y m.z rest

/-- `Machine.OptLiftSpeed` on the position stack. -/
def OptLiftSpeed (stack : List Position) : List Position :=
  optLiftGo 0 0 0 stack

/-! ## 4.1 Drill-speed memoization (`OptDrillSpeed`) -/

/-- The history scan inside `fastDrill`: walk the drill stack looking for
entries at the same x/y, tracking the minimum z seen (the Go local `depth`
starts at the float zero value) and whether any entry went strictly below
the running minimum (`found`). -/
def fastDrillScan (drill : List Position) (pos : Position) : ℚ × Bool :=
  drill.foldl
    (fun acc p =>
      if p.x = pos.x ∧ p.y = pos.y ∧ p.z < acc.1 then (p.z, true) else acc)
    (0, false)

/-- The guard of the `OptDrillSpeed` loop: the move continues a drilling
motion (same x/y as the preceding move), descends (z strictly below the
preceding z) and is a controlled linear move. -/
def drillQualifies (lx ly lz : ℚ) (m : Position) : Prop :=
  m.x = lx ∧ m.y = ly ∧ m.z < lz ∧ m.state.moveMode = moveModeLinear

instance (lx ly lz : ℚ) (m : Position) : Decidable (drillQualifies lx ly lz m) := by
  unfold drillQualifies; infer_instance

/-- What one qualifying move contributes to the new stack (`fastDrill`'s
result as consumed by the loop): with recorded history strictly below the
initial depth 0, either the whole move turns rapid (target at or above the
recorded minimum) or a synthetic rapid move down to the recorded minimum is
inserted in front of the unmodified original; without such history the move
is kept as-is. -/
def drillEmits (drill : List Position) (m : Position) : List Position :=
  let r := fastDrillScan drill m
  if r.2 then
    if m.z ≥ r.1 then [{ m with state := { m.state with moveMode := moveModeRapid } }]
    else [{ m with z := r.1, state := { m.state with moveMode := moveModeRapid } }, m]
  else [m]

/-- Main loop of `Machine.OptDrillSpeed`; `lx, ly, lz` mirror the Go locals
`lastx, lasty, lastz` and `drill` the append-only `drillStack` (which
receives every qualifying move, inside `fastDrill`). -/
def optDrillGo (lx ly lz : ℚ) (drill : List Position) : List Position → List Position
  | [] => []
  | m :: rest =>
    if drillQualifies lx ly lz m then
      drillEmits drill m ++ optDrillGo m.x m.y m.z (drill ++ [m]) rest
    else
      m :: optDrillGo m.x m.y m.z drill rest

/-- `Machine.OptDrillSpeed` on the position stack. -/
def OptDrillSpeed (stack : List Position) : List Position :=
  optDrillGo 0 0 0 [] stack

/-! ## 4.4 Redundant-segment collapse (`OptBogusMoves`) -/

/-- Exact equality of the unit vectors of two displacements, as the exact-
arithmetic counterpart of the source's componentwise `==` on
`(dx/norm, dy/norm, dz/norm)`: for nonzero vectors the real unit vectors
coincide iff the cross product vanishes and the dot product is positive;
for the zero vector (the initial value of the Go locals
`lastvecX/Y/Z`) the source's stored vector is `(0,0,0)`, which never equals
a unit vector, matching the dot-product test failing. -/
def sameDir (a b : ℚ × ℚ × ℚ) : Bool :=
  a.1 * b.2.1 == a.2.1 * b.1 && a.1 * b.2.2 == a.2.2 * b.1 &&
  a.2.1 * b.2.2 == a.2.2 * b.2.1 &&
  decide (0 < a.1 * b.1 + a.2.1 * b.2.1 + a.2.2 * b.2.2)

/-- Main loop of `Machine.OptBogusMoves`.  `pos` mirrors
`xstate/ystate/zstate` (the running position), `lastvec` the last recorded
direction (stored here as the unnormalized displacement whose unit vector
the source keeps), `npos` the output built so far.  `npos.dropLast ++ [m]`
is the in-place overwrite `npos[len(npos)-1] = m` of the source; it is
reachable only with nonempty `npos` because the stored direction starts at
zero and only becomes nonzero when a move is appended. -/
def optBogusGo (pos lastvec : ℚ × ℚ × ℚ) (npos : List Position) : List Position → List Position
  | [] => npos
  | m :: rest =>
    let d : ℚ × ℚ × ℚ := (m.x - pos.1, m.y - pos.2.1, m.z - pos.2.2)
    let pos2 : ℚ × ℚ × ℚ := (m.x, m.y, m.z)
    if m.state.moveMode ≠ moveModeRapid ∧ m.state.moveMode ≠ moveModeLinear then
      optBogusGo pos2 lastvec (npos ++ [m]) rest
    else if d.1 = 0 ∧ d.2.2 = 0 ∧ d.2.1 = 0 then
      optBogusGo pos2 lastvec npos rest
    else if sameDir lastvec d then
      optBogusGo pos2 lastvec (npos.dropLast ++ [m]) rest
    else
      optBogusGo pos2 d (npos ++ [m]) rest

/-- `Machine.OptBogusMoves` on the position stack. -/
def OptBogusMoves (stack : List Position) : List Position :=
  optBogusGo (0, 0, 0) (0, 0, 0) [] stack

/-! ## 4.6 Safety-height detection & enforcement (`SetSafetyHeight`) -/

/-- One iteration of the detection scan of `Machine.SetSafetyHeight` over
the pair `(maxz, nextz)`: a new overall maximum pushes the old maximum into
`nextz`, and any value strictly between `nextz` and the (possibly updated)
maximum replaces `nextz` — the source's two consecutive `if`s. -/
def maxNextStep (mn : ℚ × ℚ) (m : Position) : ℚ × ℚ :=
  let a := if m.z > mn.1 then (m.z, mn.1) else mn
  if m.z > a.2 ∧ m.z < a.1 then (a.1, m.z) else a

/-- The detection scan of `Machine.SetSafetyHeight`, both components
starting at the float zero values. -/
def maxNextScan : ℚ × ℚ → List Position → ℚ × ℚ
  | mn, [] => mn
  | mn, m :: rest => maxNextScan (maxNextStep mn m) rest

/-- The maximum-z scan shared by `SetSafetyHeight` and `Return`
(`if m.z > maxz { maxz = m.z }` from the zero value). -/
def maxzOf (stack : List Position) : ℚ :=
  stack.foldl (fun a m => if m.z > a then m.z else a) 0

/-- The "lower feed height" stated directly: the largest z value strictly
below the path maximum, with the scan's initial 0 as an implicit
always-present candidate. -/
def lowerFeedHeight (stack : List Position) : ℚ :=
  stack.foldl (fun a m => if m.z < maxzOf stack ∧ m.z > a then m.z else a) 0

/-- The rewrite loop of `Machine.SetSafetyHeight`: every record whose x/y
both equal the previous record's (the Go locals `lastx, lasty` start at
zero) and whose z equals the detected maximum gets its z replaced. -/
def applySafetyHeight (height maxz : ℚ) : ℚ × ℚ → List Position → List Position
  | _, [] => []
  | lp, m :: rest =>
    (if lp.1 = m.x ∧ lp.2 = m.y ∧ m.z = maxz then { m with z := height } else m)
      :: applySafetyHeight height maxz (m.x, m.y) rest

/-- `Machine.SetSafetyHeight` on the position stack: reject the requested
height unless it strictly clears the detected `nextz` (the error names that
height), otherwise rewrite all maximum-z records reached without x/y
motion. -/
def SetSafetyHeightStack (stack : List Position) (height : ℚ) : Except OptError (List Position) :=
  let mn := maxNextScan (0, 0) stack
  if height ≤ mn.2 then .error (.safetyHeightConflict mn.2)
  else .ok (applySafetyHeight height mn.1 (0, 0) stack)

/-- `Machine.SetSafetyHeight` at the machine level: the stack is replaced
only on success (the source returns before its rewrite loop on error). -/
def Machine.SetSafetyHeight (vm : Machine) (height : ℚ) : Machine × Option OptError :=
  match SetSafetyHeightStack vm.posStack height with
  | .ok s => ({ vm with posStack := s }, none)
  | .error e => (vm, some e)

/-! ## 4.7 Return-to-origin synthesis (`Return`) -/

/-- `Machine.Return` on the position stack.  The source indexes the last
element unconditionally and would crash on an empty stack (an explicit
caller precondition per section 7); the `none` branch here is unreachable
under the nonempty hypothesis of the corresponding claim. -/
def ReturnStack (stack : List Position) : List Position :=
  let maxz := maxzOf stack
  match stack.getLast? with
  | none => stack
  | some lastPos =>
    if lastPos.x = 0 ∧ lastPos.y = 0 ∧ lastPos.z = 0 then stack
    else if lastPos.x = 0 ∧ lastPos.y = 0 ∧ lastPos.z ≠ 0 then
      stack ++ [{ lastPos with z := 0, state := { lastPos.state with moveMode := moveModeRapid } }]
    else if lastPos.z = maxz then
      let move1 := { lastPos with x := 0, y := 0, state := { lastPos.state with moveMode := moveModeRapid } }
      stack ++ [move1, { move1 with z := 0 }]
    else
      let move1 := { lastPos with z := maxz, state := { lastPos.state with moveMode := moveModeRapid } }
      let move2 := { move1 with x := 0, y := 0 }
      stack ++ [move1, move2, { move2 with z := 0 }]

/-! ## 4.2 Route grouping / re-sequencing (`OptRouteGrouping`)

The Go function runs entirely on locals and assigns `vm.posStack` exactly
once, at the very end; every `panic` is recovered by the deferred handler
and surfaced as the error, so an error leaves the stack untouched.  The
embedding therefore computes the whole new stack in `Except` and the
machine-level wrapper installs it only on `ok`. -/

/-- The scan state of the grouping loop: previous target (`lastx`, `lasty`,
`lastz`), completed groups (`sets`), the group being accumulated
(`curSet`), the running maximum z (`safetyHeight`), the recorded drill
feedrate (`drillSpeed`) and whether a first plunge was ever seen
(`sequenceStarted`). -/
structure GState where
  lastx : ℚ
  lasty : ℚ
  lastz : ℚ
  sets : List (List Position)
  curSet : List Position
  safetyHeight : ℚ
  drillSpeed : ℚ
  sequenceStarted : Bool
deriving DecidableEq, Repr

/-- The shared tail of every non-panicking loop iteration (`updateLast`):
raise the running maximum and remember the move's target. -/
def updLast (m : Position) (st : GState) : GState :=
  { st with lastx := m.x, lasty := m.y, lastz := m.z, safetyHeight := if m.z > st.safetyHeight then m.z else st.safetyHeight }

/-- One iteration of the grouping loop.  A move changing z together with x
or y aborts.  A plunge (unchanged x/y, z crossing from at-least-0 to
below 0) starts/extends the current group and — because the Go `if` chain
falls through to the unconditional append for every non-lift move — is
appended to `curSet` twice; it also records the drill feedrate, aborting if
a second, strictly larger positive feedrate shows up.  A lift (unchanged
x/y, z crossing back to at-least-0) closes the current group and skips the
append.  Every other move is appended to the current group once
`sequenceStarted` holds. -/
def groupStep (st : GState) (m : Position) : Except OptError GState :=
  if m.z ≠ st.lastz ∧ (m.x ≠ st.lastx ∨ m.y ≠ st.lasty) then
    .error .complexZMotion
  else if m.x = st.lastx ∧ m.y = st.lasty ∧ st.lastz ≥ 0 ∧ m.z < 0 then
    if m.state.moveMode = moveModeLinear ∧ m.state.feedrate > st.drillSpeed then
      if st.drillSpeed ≠ 0 then .error .multipleDrillFeedrates
      else .ok (updLast m { st with sequenceStarted := true, curSet := st.curSet ++ [m, m], drillSpeed := m.state.feedrate })
    else .ok (updLast m { st with sequenceStarted := true, curSet := st.curSet ++ [m, m] })
  else if m.x = st.lastx ∧ m.y = st.lasty ∧ st.lastz < 0 ∧ m.z ≥ 0 then
    .ok (updLast m { st with sets := if st.sequenceStarted then st.sets ++ [st.curSet] else st.sets, curSet := [] })
  else
    .ok (updLast m { st with curSet := if st.sequenceStarted then st.curSet ++ [m] else st.curSet })

/-- The grouping loop over the whole stack. -/
def groupScan : GState → List Position → Except OptError GState
  | st, [] => .ok st
  | st, m :: rest =>
    match groupStep st m with
    | .error e => .error e
    | .ok st2 => groupScan st2 rest

/-- Initial scan state (all Go locals start at their zero values). -/
def GState0 : GState :=
  { lastx := 0, lasty := 0, lastz := 0, sets := [], curSet := [],
    safetyHeight := 0, drillSpeed := 0, sequenceStarted := false }

/-- The trailing-state check after the scan: an unfinished group is only
tolerated when it is the single move at (0, 0, safetyHeight) equal to the
last recorded position. -/
def finalCheck (st : GState) : Option OptError :=
  match st.curSet with
  | [] => none
  | [p] =>
    if p.z ≠ st.safetyHeight ∨ st.lastz ≠ st.safetyHeight ∨ p.x ≠ 0 ∨ p.y ≠ 0
    then some .incompleteFinalSet else none
  | _ => some .incompleteFinalSet

/-- The distance measure `diffFromCur` of the source, squared: the source
computes `Sqrt((max-min x)^2 + (max-min y)^2 + (max-min z)^2)` and feeds it
only to `<`; dropping the strictly monotone square root preserves every
comparison. -/
def sqDist (cur : ℚ × ℚ × ℚ) (p : Position) : ℚ :=
  let dx := max cur.1 p.x - min cur.1 p.x
  let dy := max cur.2.1 p.y - min cur.2.1 p.y
  let dz := max cur.2.2 p.z - min cur.2.2 p.z
  dx ^ 2 + dy ^ 2 + dz ^ 2

/-- First element of a group as used by the selection loop
(`sets[idx][0]`); the fallback is unreachable because the caller checks
every group nonempty (an empty group would make the source's index
expression panic, which the embedding surfaces as an error). -/
def setHeadD (s : List Position) : Position := s.headD nullPos

/-- The inner selection loop: index of the group whose first position is
strictly closest to `cur`, earliest index winning ties (the Go loop keeps
`selectedSet` unless a strictly smaller difference appears). -/
def argminIdx (cur : ℚ × ℚ × ℚ) (sets : List (List Position)) : Nat :=
  (List.range sets.length).foldl
    (fun best idx =>
      if sqDist cur (setHeadD (sets.getD idx [])) < sqDist cur (setHeadD (sets.getD best [])) then idx
      else best) 0

/-- The outer nearest-neighbor loop: repeatedly move the selected group to
the sorted list, advancing the virtual position to its first recorded
target.  The Go loop runs `for len(sets) > 0`, removing exactly one group
per round; the fuel argument (instantiated with the initial length) makes
that recursion structural. -/
def nnSortFuel : Nat → ℚ × ℚ × ℚ → List (List Position) → List (List Position)
  | 0, _, _ => []
  | _ + 1, _, [] => []
  | fuel + 1, cur, s0 :: srest =>
    let sets := s0 :: srest
    let i := argminIdx cur sets
    let s := sets.getD i []
    let h := setHeadD s
    s :: nnSortFuel fuel (h.x, h.y, h.z) (sets.eraseIdx i)

/-- The travel moves `moveTo` inserts before a group's first position
`pos`, given the last emitted position `curPos`: within tolerance, an exact
corrective linear move when not already exact, then the target unless its z
is the (redundant) safety height; beyond tolerance, a rapid rise to safety
height, a rapid traverse, and a linear descent at the drill feedrate. -/
def moveToMoves (tol sh ds : ℚ) (curPos pos : Position) : List Position :=
  if |curPos.x - pos.x| < tol ∧ |curPos.y - pos.y| < tol then
    (if curPos.x ≠ pos.x ∨ curPos.y ≠ pos.y then
      [{ curPos with x := pos.x, y := pos.y, state := { curPos.state with moveMode := moveModeLinear } }]
     else [])
    ++ (if pos.z = sh then [] else [pos])
  else
    let step1 := { curPos with z := sh, state := { curPos.state with moveMode := moveModeRapid } }
    let step2 := { step1 with x := pos.x, y := pos.y }
    let step3 := { step2 with z := pos.z, state := { step2.state with moveMode := moveModeLinear, feedrate := ds } }
    [step1, step2, step3]

/-- The reconstruction loop: for each sorted group, `moveTo` its first
position (reading the last element emitted so far, `cur`) and append the
remaining group members verbatim. -/
def rebuild (tol sh ds : ℚ) : Position → List (List Position) → List Position
  | _, [] => []
  | cur, s :: rest =>
    let chunk :=
      match s with
      | [] => []
      | p :: ps => moveToMoves tol sh ds cur p ++ ps
    chunk ++ rebuild tol sh ds (chunk.getLastD cur) rest

/-- `Machine.OptRouteGrouping` on the position stack: scan, validate,
nearest-neighbor sort, then rebuild behind the preserved first record.
Error order follows the source: scan panics, then the safety-height /
drill-feedrate / trailing-set checks; the sorted-set index panic of the
source on an empty group and the `posStack[0]` panic on an empty stack both
surface as `indexOutOfRange` (each recovered by the deferred handler in
Go). -/
def OptRouteGroupingStack (tol : ℚ) (stack : List Position) : Except OptError (List Position) :=
  match groupScan GState0 stack with
  | .error e => .error e
  | .ok st =>
    if st.safetyHeight = 0 then .error .safetyHeightUndetected
    else if st.drillSpeed = 0 then .error .drillFeedrateUndetected
    else
      match finalCheck st with
      | some e => .error e
      | none =>
        if st.sets.all (fun s => !s.isEmpty) then
          match stack with
          | [] => .error .indexOutOfRange
          | h :: _ =>
            .ok (h :: rebuild tol st.safetyHeight st.drillSpeed h
                   (nnSortFuel st.sets.length (0, 0, 0) st.sets))
        else .error .indexOutOfRange

/-- `Machine.OptRouteGrouping` at the machine level: the single assignment
`vm.posStack = newPos` of the source happens only when no panic occurred. -/
def Machine.OptRouteGrouping (vm : Machine) : Machine × Option OptError :=
  match OptRouteGroupingStack vm.tolerance vm.posStack with
  | .ok s => ({ vm with posStack := s }, none)
  | .error e => (vm, some e)

/-! ## Concrete stacks used by witnesses and counterexamples -/

/-- Build a position with default spindle state. -/
def mkPos (x y z : ℚ) (mode : MoveMode) (feed : ℚ) : Position :=
  { x := x, y := y, z := z,
    state := { moveMode := mode, feedrate := feed, spindleEnabled := false,
               spindleClockwise := false, spindleSpeed := 0 } }

/-- A complete two-hole toolpath whose first plunge uses feedrate 150 and
whose second uses feedrate 100 (the larger feedrate first): null move,
lift to z=5, traverse to x=1, plunge to z=-1 at feedrate 150, lift,
traverse to x=2, plunge to z=-1 at feedrate 100, lift, return to (0,0,5). -/
def routeStack150First : List Position :=
  [ mkPos 0 0 0 moveModeRapid 0,
    mkPos 0 0 5 moveModeRapid 0,
    mkPos 1 0 5 moveModeRapid 0,
    mkPos 1 0 (-1) moveModeLinear 150,
    mkPos 1 0 5 moveModeRapid 0,
    mkPos 2 0 5 moveModeRapid 0,
    mkPos 2 0 (-1) moveModeLinear 100,
    mkPos 2 0 5 moveModeRapid 0,
    mkPos 0 0 5 moveModeRapid 0 ]

/-- The same toolpath with the two plunge feedrates swapped, so the
smaller feedrate (100) is recorded first and the larger (150) found
later. -/
def routeStack100First : List Position :=
  [ mkPos 0 0 0 moveModeRapid 0,
    mkPos 0 0 5 moveModeRapid 0,
    mkPos 1 0 5 moveModeRapid 0,
    mkPos 1 0 (-1) moveModeLinear 100,
    mkPos 1 0 5 moveModeRapid 0,
    mkPos 2 0 5 moveModeRapid 0,
    mkPos 2 0 (-1) moveModeLinear 150,
    mkPos 2 0 5 moveModeRapid 0,
    mkPos 0 0 5 moveModeRapid 0 ]

/-! ## Claim C9 — normalization mutators -/

/-- C9 (corrected): `LimitFeedrate` and `EnforceSpindle` are idempotent,
but `FeedrateMultiplier` is not — applying it twice multiplies every
feedrate by the square of the factor, which differs from a single
application whenever the factor and the feedrates are nondegenerate. -/
theorem C9_normalization_idempotence (feed f speed : ℚ) (enabled clockwise : Bool)
    (stack : List Position) :
    LimitFeedrate feed (LimitFeedrate feed stack) = LimitFeedrate feed stack ∧
    EnforceSpindle enabled clockwise speed (EnforceSpindle enabled clockwise speed stack) =
      EnforceSpindle enabled clockwise speed stack ∧
    FeedrateMultiplier f (FeedrateMultiplier f stack) = FeedrateMultiplier (f * f) stack := by
  refine ⟨?_, ?_, ?_⟩
  · simp only [LimitFeedrate, List.map_map]
    congr 1
    funext m
    by_cases hm : m.state.feedrate > feed
    · simp [Function.comp, hm, lt_irrefl]
    · simp [Function.comp, hm]
  · simp only [EnforceSpindle, List.map_map]
    congr 1
  · simp only [FeedrateMultiplier, List.map_map]
    congr 1
    funext m
    simp [Function.comp, mul_assoc]

/-- C9 counterexample: doubling feedrates twice is not the same as doing it
once, refuting idempotence of `FeedrateMultiplier`. -/
theorem C9_cex_multiplier_not_idempotent :
    FeedrateMultiplier 2 (FeedrateMultiplier 2 [mkPos 0 0 0 moveModeLinear 1]) ≠
      FeedrateMultiplier 2 [mkPos 0 0 0 moveModeLinear 1] := by
  norm_num [FeedrateMultiplier, mkPos, Position.mk.injEq, State.mk.injEq]

/-! ## Claim C7 — opacity of non-linear, non-rapid moves -/

/-- C7 counterexample: a pure z-up move in an opaque (`moveModeOther`) mode
is rewritten to `moveModeRapid` by `OptLiftSpeed` (the source's lift scan
checks no mode), so it is not passed through unmodified; and an opaque
move sitting between two colinear linear moves is overwritten — removed
from the output — by `OptBogusMoves`, whose in-place replacement targets
whatever record was emitted last. -/
theorem C7_cex_liftspeed_rewrites_other :
    (OptLiftSpeed [mkPos 0 0 1 moveModeOther 0] = [mkPos 0 0 1 moveModeRapid 0] ∧
     mkPos 0 0 1 moveModeOther 0 ≠ mkPos 0 0 1 moveModeRapid 0) ∧
    (OptBogusMoves [mkPos 1 0 0 moveModeLinear 100, mkPos 2 0 0 moveModeOther 100,
        mkPos 3 0 0 moveModeLinear 100] =
      [mkPos 1 0 0 moveModeLinear 100, mkPos 3 0 0 moveModeLinear 100] ∧
     mkPos 2 0 0 moveModeOther 100 ∉
       OptBogusMoves [mkPos 1 0 0 moveModeLinear 100, mkPos 2 0 0 moveModeOther 100,
         mkPos 3 0 0 moveModeLinear 100]) := by
  have h : OptBogusMoves [mkPos 1 0 0 moveModeLinear 100, mkPos 2 0 0 moveModeOther 100,
      mkPos 3 0 0 moveModeLinear 100] =
      [mkPos 1 0 0 moveModeLinear 100, mkPos 3 0 0 moveModeLinear 100] := by
    norm_num [OptBogusMoves, optBogusGo, sameDir, mkPos]
    decide
  refine ⟨by decide, h, ?_⟩
  rw [h]
  decide

/-- C7 (corrected): an opaque-mode move is never itself rewritten by
`OptBogusMoves` — it is appended unchanged, with the running direction
state untouched; `OptLiftSpeed` leaves an opaque-mode move unchanged
unless it is a pure z-up lift (x/y equal to the previous move, z strictly
greater), in which case exactly its move mode is set to rapid. -/
theorem C7_other_moves_opacity :
    (∀ (pos lastvec : ℚ × ℚ × ℚ) (npos : List Position) (m : Position) (rest : List Position),
        m.state.moveMode = moveModeOther →
        optBogusGo pos lastvec npos (m :: rest) =
          optBogusGo (m.x, m.y, m.z) lastvec (npos ++ [m]) rest) ∧
    (∀ (lx ly lz : ℚ) (m : Position) (rest : List Position),
        ¬(m.x = lx ∧ m.y = ly ∧ m.z > lz) →
        optLiftGo lx ly lz (m :: rest) = m :: optLiftGo m.x m.y m.z rest) ∧
    (∀ (lx ly lz : ℚ) (m : Position) (rest : List Position),
        (m.x = lx ∧ m.y = ly ∧ m.z > lz) →
        optLiftGo lx ly lz (m :: rest) =
          { m with state := { m.state with moveMode := moveModeRapid } }
            :: optLiftGo m.x m.y m.z rest) := by
  refine ⟨?_, ?_, ?_⟩
  · intro pos lastvec npos m rest hm
    simp only [optBogusGo]
    rw [if_pos]
    constructor <;> simp [hm]
  · intro lx ly lz m rest hm
    simp only [optLiftGo, if_neg hm]
  · intro lx ly lz m rest hm
    simp only [optLiftGo, if_pos hm]

/-- C7 witness: both correction branches at concrete inputs — a
non-lift opaque move survives `OptLiftSpeed` unchanged, a lift one is
re-moded, and `OptBogusMoves` appends an opaque move verbatim. -/
theorem C7_witness :
    optLiftGo 0 0 5 (mkPos 3 3 1 moveModeOther 0 :: []) =
      mkPos 3 3 1 moveModeOther 0 :: optLiftGo 3 3 1 [] ∧
    optLiftGo 0 0 0 (mkPos 0 0 1 moveModeOther 0 :: []) =
      { mkPos 0 0 1 moveModeOther 0 with
        state := { (mkPos 0 0 1 moveModeOther 0).state with moveMode := moveModeRapid } }
        :: optLiftGo 0 0 1 [] ∧
    optBogusGo (0, 0, 0) (0, 0, 0) [] (mkPos 1 1 1 moveModeOther 7 :: []) =
      optBogusGo (1, 1, 1) (0, 0, 0) ([] ++ [mkPos 1 1 1 moveModeOther 7]) [] :=
  ⟨C7_other_moves_opacity.2.1 0 0 5 (mkPos 3 3 1 moveModeOther 0) [] (by decide),
   C7_other_moves_opacity.2.2 0 0 0 (mkPos 0 0 1 moveModeOther 0) [] (by decide),
   C7_other_moves_opacity.1 (0, 0, 0) (0, 0, 0) [] (mkPos 1 1 1 moveModeOther 7) [] (by decide)⟩

/-! ## Claims C4 and C10 — drill-speed memoization -/

/-- C4 (confirmed): per-move behaviour of `OptDrillSpeed`.  A move that
does not qualify (different x/y than its predecessor, non-descending z, or
non-linear mode) passes through unchanged; a qualifying move with recorded
history below the initial depth 0 (`fastDrillScan` returning `found`)
either becomes a rapid move when its target is at or above the recorded
minimum `d`, or is preceded by a synthetic rapid move to `d` while staying
itself byte-for-byte unchanged; a qualifying move without such history
passes through unchanged.  The head equations show the output order
follows the input order, emissions replacing each move in place. -/
theorem C4_drill_memoization (lx ly lz : ℚ) (drill : List Position) (m : Position)
    (rest : List Position) :
    (¬drillQualifies lx ly lz m →
        optDrillGo lx ly lz drill (m :: rest) = m :: optDrillGo m.x m.y m.z drill rest) ∧
    (drillQualifies lx ly lz m →
        optDrillGo lx ly lz drill (m :: rest) =
          drillEmits drill m ++ optDrillGo m.x m.y m.z (drill ++ [m]) rest) ∧
    (∀ d, fastDrillScan drill m = (d, true) →
        (m.z ≥ d →
           drillEmits drill m = [{ m with state := { m.state with moveMode := moveModeRapid } }]) ∧
        (m.z < d →
           drillEmits drill m =
             [{ m with z := d, state := { m.state with moveMode := moveModeRapid } }, m])) ∧
    ((fastDrillScan drill m).2 = false → drillEmits drill m = [m]) := by
  refine ⟨?_, ?_, ?_, ?_⟩
  · intro hq
    simp only [optDrillGo, if_neg hq]
  · intro hq
    simp only [optDrillGo, if_pos hq]
  · intro d hd
    constructor
    · intro hz
      simp [drillEmits, hd, hz]
    · intro hz
      have hz2 : ¬ d ≤ m.z := not_le.mpr hz
      simp [drillEmits, hd, hz2]
  · intro hf
    simp [drillEmits, hf]

/-- C4 witness: the spec's worked example — after drilling (0,0) to z=-10,
a later plunge to z=-5 becomes a rapid move in full, and a later plunge to
z=-15 is split into a synthetic rapid move to z=-10 followed by the
original linear move. -/
theorem C4_drill_memoization_witness :
    drillEmits [mkPos 0 0 (-10) moveModeLinear 100] (mkPos 0 0 (-5) moveModeLinear 100) =
      [mkPos 0 0 (-5) moveModeRapid 100] ∧
    drillEmits [mkPos 0 0 (-10) moveModeLinear 100] (mkPos 0 0 (-15) moveModeLinear 100) =
      [mkPos 0 0 (-10) moveModeRapid 100, mkPos 0 0 (-15) moveModeLinear 100] ∧
    optDrillGo 0 0 5 [] (mkPos 0 0 (-10) moveModeLinear 100 :: []) =
      mkPos 0 0 (-10) moveModeLinear 100 :: optDrillGo 0 0 (-10) [mkPos 0 0 (-10) moveModeLinear 100] [] := by
  refine ⟨?_, ?_, ?_⟩
  · have h := ((C4_drill_memoization 0 0 5 [mkPos 0 0 (-10) moveModeLinear 100]
      (mkPos 0 0 (-5) moveModeLinear 100) []).2.2.1 (-10) (by decide)).1 (by decide)
    exact h.trans (by decide)
  · have h := ((C4_drill_memoization 0 0 5 [mkPos 0 0 (-10) moveModeLinear 100]
      (mkPos 0 0 (-15) moveModeLinear 100) []).2.2.1 (-10) (by decide)).2 (by decide)
    exact h.trans (by decide)
  · have h := (C4_drill_memoization 0 0 5 [] (mkPos 0 0 (-10) moveModeLinear 100) []).2.1
      (by decide)
    exact h.trans (by decide)

/-- C10 (confirmed): a location whose entire recorded drill history has
non-negative target z yields no memoization — the scan keeps the initial
depth 0 and never sets `found` (a history entry registers only when its z
is strictly below the running minimum), so a qualifying move over such
history passes through `OptDrillSpeed` unchanged. -/
theorem C10_nonnegative_history_no_memoization (lx ly lz : ℚ) (drill : List Position)
    (m : Position) (rest : List Position) (hq : drillQualifies lx ly lz m)
    (hhist : ∀ p ∈ drill, p.x = m.x ∧ p.y = m.y → 0 ≤ p.z) :
    fastDrillScan drill m = (0, false) ∧
    optDrillGo lx ly lz drill (m :: rest) =
      m :: optDrillGo m.x m.y m.z (drill ++ [m]) rest := by
  have hscan : fastDrillScan drill m = (0, false) := by
    unfold fastDrillScan
    induction drill with
    | nil => rfl
    | cons p t ih =>
      simp only [List.foldl_cons]
      rw [if_neg]
      · exact ih (fun q hq2 => hhist q (List.mem_cons_of_mem p hq2))
      · rintro ⟨hx, hy, hz⟩
        exact absurd (hhist p (List.mem_cons_self p t) ⟨hx, hy⟩) (not_le.mpr hz)
  refine ⟨hscan, ?_⟩
  simp only [optDrillGo, if_pos hq, drillEmits, hscan]
  rfl

/-- C10 witness: with history only at z = 2 over (0,0), the plunge from
z = 5 to z = 1 qualifies but is left untouched. -/
theorem C10_witness :
    fastDrillScan [mkPos 0 0 2 moveModeLinear 100] (mkPos 0 0 1 moveModeLinear 100) = (0, false) ∧
    optDrillGo 0 0 5 [mkPos 0 0 2 moveModeLinear 100] (mkPos 0 0 1 moveModeLinear 100 :: []) =
      mkPos 0 0 1 moveModeLinear 100
        :: optDrillGo 0 0 1 ([mkPos 0 0 2 moveModeLinear 100] ++ [mkPos 0 0 1 moveModeLinear 100]) [] :=
  C10_nonnegative_history_no_memoization 0 0 5 [mkPos 0 0 2 moveModeLinear 100]
    (mkPos 0 0 1 moveModeLinear 100) [] (by decide) (by decide)

/-! ## Claim C6 — return-to-origin synthesis -/

/-- Target coordinates of a position. -/
def coordsOf (p : Position) : ℚ × ℚ × ℚ := (p.x, p.y, p.z)

/-- The last element of an appended nonempty tail. -/
theorem getLastD_append_cons (l : List Position) (b : Position) (t : List Position) :
    ∀ d, (l ++ b :: t).getLastD d = (b :: t).getLastD d := by
  induction l with
  | nil => intro d; rfl
  | cons a l ih =>
    intro d
    simp only [List.cons_append, List.getLastD_cons]
    rw [ih a, List.getLastD_cons]

/-- C6 (confirmed): on a nonempty stack, `Return` appends exactly what the
last move dictates — nothing at (0,0,0); one rapid move to (0,0,0) when
over the origin but elevated; two rapid moves (0,0,current z) then (0,0,0)
when the last z equals the scanned maximum; three rapid moves via the
maximum height otherwise — the original records are all preserved as a
prefix and the result always ends at (0,0,0). -/
theorem C6_return_cases (stack : List Position) (h : stack ≠ []) :
    ∃ tail,
      ReturnStack stack = stack ++ tail ∧
      (((stack.getLast h).x = 0 ∧ (stack.getLast h).y = 0 ∧ (stack.getLast h).z = 0) →
          tail = []) ∧
      (((stack.getLast h).x = 0 ∧ (stack.getLast h).y = 0 ∧ (stack.getLast h).z ≠ 0) →
          tail.map coordsOf = [(0, 0, 0)] ∧
          tail.map (fun p => p.state.moveMode) = [moveModeRapid]) ∧
      ((¬((stack.getLast h).x = 0 ∧ (stack.getLast h).y = 0) ∧
          (stack.getLast h).z = maxzOf stack) →
          tail.map coordsOf = [(0, 0, (stack.getLast h).z), (0, 0, 0)] ∧
          tail.map (fun p => p.state.moveMode) = [moveModeRapid, moveModeRapid]) ∧
      ((¬((stack.getLast h).x = 0 ∧ (stack.getLast h).y = 0) ∧
          (stack.getLast h).z ≠ maxzOf stack) →
          tail.map coordsOf =
            [((stack.getLast h).x, (stack.getLast h).y, maxzOf stack),
             (0, 0, maxzOf stack), (0, 0, 0)] ∧
          tail.map (fun p => p.state.moveMode) =
            [moveModeRapid, moveModeRapid, moveModeRapid]) ∧
      coordsOf ((stack ++ tail).getLastD nullPos) = (0, 0, 0) := by
  have hs : stack.getLast? = some (stack.getLast h) := List.getLast?_eq_getLast stack h
  simp only [ReturnStack, hs]
  split_ifs with h1 h2 h3
  · refine ⟨[], by simp, fun _ => rfl, ?_, ?_, ?_, ?_⟩
    · intro hc; exact absurd h1.2.2 hc.2.2
    · intro hc; exact absurd ⟨h1.1, h1.2.1⟩ hc.1
    · intro hc; exact absurd ⟨h1.1, h1.2.1⟩ hc.1
    · simp [List.getLastD_eq_getLast?, hs, coordsOf, h1.1, h1.2.1, h1.2.2]
  · refine ⟨_, rfl, ?_, ?_, ?_, ?_, ?_⟩
    · intro hc; exact absurd hc.2.2 h2.2.2
    · intro _
      constructor
      · simp [coordsOf, h2.1, h2.2.1]
      · simp
    · intro hc; exact absurd ⟨h2.1, h2.2.1⟩ hc.1
    · intro hc; exact absurd ⟨h2.1, h2.2.1⟩ hc.1
    · rw [getLastD_append_cons]
      simp [coordsOf, h2.1, h2.2.1]
  · have hxy : ¬((stack.getLast h).x = 0 ∧ (stack.getLast h).y = 0) := by
      intro hxy0
      by_cases hz : (stack.getLast h).z = 0
      · exact h1 ⟨hxy0.1, hxy0.2, hz⟩
      · exact h2 ⟨hxy0.1, hxy0.2, hz⟩
    refine ⟨_, rfl, ?_, ?_, ?_, ?_, ?_⟩
    · intro hc; exact absurd ⟨hc.1, hc.2.1⟩ hxy
    · intro hc; exact absurd ⟨hc.1, hc.2.1⟩ hxy
    · intro _
      constructor
      · simp [coordsOf, h3]
      · simp
    · intro hc; exact absurd h3 hc.2
    · rw [getLastD_append_cons]
      simp [coordsOf]
  · have hxy : ¬((stack.getLast h).x = 0 ∧ (stack.getLast h).y = 0) := by
      intro hxy0
      by_cases hz : (stack.getLast h).z = 0
      · exact h1 ⟨hxy0.1, hxy0.2, hz⟩
      · exact h2 ⟨hxy0.1, hxy0.2, hz⟩
    refine ⟨_, rfl, ?_, ?_, ?_, ?_, ?_⟩
    · intro hc; exact absurd ⟨hc.1, hc.2.1⟩ hxy
    · intro hc; exact absurd ⟨hc.1, hc.2.1⟩ hxy
    · intro hc; exact absurd hc.2 h3
    · intro _
      constructor
      · simp [coordsOf]
      · simp
    · rw [getLastD_append_cons]
      simp [coordsOf]

/-- The spec's return-synthesis example input: ends at (10,10,0) with
observed maximum z = 5. -/
def retEx : List Position :=
  [ mkPos 0 0 0 moveModeRapid 0,
    mkPos 0 0 5 moveModeRapid 0,
    mkPos 10 10 5 moveModeRapid 0,
    mkPos 10 10 0 moveModeLinear 100 ]

/-- C6 witness: on the spec's example the three appended moves are
(10,10,5), (0,0,5), (0,0,0), all rapid, and the result ends at the
origin. -/
theorem C6_return_cases_witness :
    ∃ tail,
      ReturnStack retEx = retEx ++ tail ∧
      tail.map coordsOf = [(10, 10, 5), (0, 0, 5), (0, 0, 0)] ∧
      tail.map (fun p => p.state.moveMode) = [moveModeRapid, moveModeRapid, moveModeRapid] ∧
      coordsOf ((retEx ++ tail).getLastD nullPos) = (0, 0, 0) := by
  obtain ⟨tail, heq, _, _, _, hcase4, hend⟩ := C6_return_cases retEx (by decide)
  have hc := hcase4 (by decide)
  refine ⟨tail, heq, ?_, hc.2, hend⟩
  rw [hc.1]
  decide

/-! ## Claim C3 — failure atomicity of the fallible passes -/

/-- Shared helper: the machine-level route grouping pass leaves the machine
untouched whenever it reports an error (the source's only mutation is the
final assignment, which the recovered panic skips). -/
theorem routeGroupingUnchangedOnError (vm : Machine) (e : OptError)
    (he : (Machine.OptRouteGrouping vm).2 = some e) : (Machine.OptRouteGrouping vm).1 = vm := by
  unfold Machine.OptRouteGrouping at he ⊢
  cases hr : OptRouteGroupingStack vm.tolerance vm.posStack with
  | ok s => rw [hr] at he; simp at he
  | error e2 => rfl

/-- C3 (confirmed): when `OptRouteGrouping` or `SetSafetyHeight` reports an
error the machine — in particular its position stack — is exactly the
machine before the call; on success the pass installs precisely the fully
rewritten stack computed by the pass body, leaving the tolerance alone, so
no partially rewritten state is ever observable. -/
theorem C3_failure_atomicity (vm : Machine) (height : ℚ) :
    (∀ e, (Machine.OptRouteGrouping vm).2 = some e → (Machine.OptRouteGrouping vm).1 = vm) ∧
    ((Machine.OptRouteGrouping vm).2 = none →
       ∃ s, OptRouteGroupingStack vm.tolerance vm.posStack = .ok s ∧
         (Machine.OptRouteGrouping vm).1 = { vm with posStack := s }) ∧
    (∀ e, (Machine.SetSafetyHeight vm height).2 = some e →
       (Machine.SetSafetyHeight vm height).1 = vm) ∧
    ((Machine.SetSafetyHeight vm height).2 = none →
       ∃ s, SetSafetyHeightStack vm.posStack height = .ok s ∧
         (Machine.SetSafetyHeight vm height).1 = { vm with posStack := s }) := by
  refine ⟨fun e he => routeGroupingUnchangedOnError vm e he, ?_, ?_, ?_⟩
  · intro hn
    unfold Machine.OptRouteGrouping at hn ⊢
    cases hr : OptRouteGroupingStack vm.tolerance vm.posStack with
    | ok s => exact ⟨s, rfl, rfl⟩
    | error e2 => rw [hr] at hn; simp at hn
  · intro e he
    unfold Machine.SetSafetyHeight at he ⊢
    cases hr : SetSafetyHeightStack vm.posStack height with
    | ok s => rw [hr] at he; simp at he
    | error e2 => rfl
  · intro hn
    unfold Machine.SetSafetyHeight at hn ⊢
    cases hr : SetSafetyHeightStack vm.posStack height with
    | ok s => exact ⟨s, rfl, rfl⟩
    | error e2 => rw [hr] at hn; simp at hn

/-- The C5 counterexample stack: maximum z is 5 and the only other z value
is -1. -/
def shCexStack : List Position :=
  [ mkPos 0 0 5 moveModeRapid 0, mkPos 0 0 (-1) moveModeLinear 100 ]

/-- C3 witness: a complex-motion input leaves the machine untouched through
`OptRouteGrouping`, and a conflicting height request leaves it untouched
through `SetSafetyHeight`. -/
theorem C3_failure_atomicity_witness :
    (Machine.OptRouteGrouping { posStack := [mkPos 1 1 1 moveModeRapid 0], tolerance := 1 }).1 =
      { posStack := [mkPos 1 1 1 moveModeRapid 0], tolerance := 1 } ∧
    (Machine.SetSafetyHeight { posStack := shCexStack, tolerance := 1 } 0).1 =
      { posStack := shCexStack, tolerance := 1 } :=
  ⟨(C3_failure_atomicity { posStack := [mkPos 1 1 1 moveModeRapid 0], tolerance := 1 } 0).1
      .complexZMotion (by decide),
   (C3_failure_atomicity { posStack := shCexStack, tolerance := 1 } 0).2.2.1
      (.safetyHeightConflict 0) (by decide)⟩

/-! ## Claim C2 — ambiguous drill feedrates -/

/-- Modelled from the claim's words, for refutation only: the feedrates of
all downward (previous z at least 0, target z below 0) linear moves of a
stack, scanned with the previous z starting at 0. -/
def specDownFeedrates : ℚ → List Position → List ℚ
  | _, [] => []
  | lastz, m :: rest =>
    (if lastz ≥ 0 ∧ m.z < 0 ∧ m.state.moveMode = moveModeLinear
     then [m.state.feedrate] else [])
      ++ specDownFeedrates m.z rest

/-- C2 counterexample: `routeStack150First` has two distinct positive
feedrates (150 then 100) among its downward linear moves, yet
`OptRouteGrouping` succeeds on it — the ambiguity check only fires when the
larger feedrate comes second, so the claim's "regardless of the order"
fails. -/
theorem C2_cex_order_dependent :
    specDownFeedrates 0 routeStack150First = [150, 100] ∧
    (150 : ℚ) ≠ 100 ∧ (0 : ℚ) < 150 ∧ (0 : ℚ) < 100 ∧
    isOkE (OptRouteGroupingStack 1 routeStack150First) = true := by
  refine ⟨by decide, by norm_num, by norm_num, by norm_num, ?_⟩
  norm_num [OptRouteGroupingStack, groupScan, groupStep, GState0, updLast, finalCheck,
    nnSortFuel, argminIdx, sqDist, setHeadD, nullPos, mkPos, rebuild, moveToMoves,
    routeStack150First, isOkE, List.range_succ, List.eraseIdx, List.getD, List.headD,
    List.getLastD, List.all]

/-- C2 (corrected): the grouping scan raises the multiple-feedrate error on
a step exactly when the move is a plunge (no complex motion, unchanged x/y,
z crossing below 0) in linear mode whose feedrate strictly exceeds the
drill feedrate recorded so far, that recorded feedrate being nonzero — so
two distinct positive feedrates abort the pass only when the larger
appears after the smaller; and any reported error leaves the machine's
stack byte-for-byte unchanged. -/
theorem C2_feedrate_ambiguity (st : GState) (m : Position) (vm : Machine) (e : OptError)
    (he : (Machine.OptRouteGrouping vm).2 = some e) :
    (groupStep st m = .error .multipleDrillFeedrates ↔
      (¬(m.z ≠ st.lastz ∧ (m.x ≠ st.lastx ∨ m.y ≠ st.lasty)) ∧
       (m.x = st.lastx ∧ m.y = st.lasty ∧ st.lastz ≥ 0 ∧ m.z < 0) ∧
       m.state.moveMode = moveModeLinear ∧ m.state.feedrate > st.drillSpeed ∧
       st.drillSpeed ≠ 0)) ∧
    (Machine.OptRouteGrouping vm).1 = vm := by
  refine ⟨?_, routeGroupingUnchangedOnError vm e he⟩
  constructor
  · intro herr
    unfold groupStep at herr
    by_cases hc : (m.z ≠ st.lastz ∧ (m.x ≠ st.lastx ∨ m.y ≠ st.lasty))
    · rw [if_pos hc] at herr; exact absurd herr (by simp)
    · rw [if_neg hc] at herr
      by_cases hd : (m.x = st.lastx ∧ m.y = st.lasty ∧ st.lastz ≥ 0 ∧ m.z < 0)
      · rw [if_pos hd] at herr
        by_cases hf : (m.state.moveMode = moveModeLinear ∧ m.state.feedrate > st.drillSpeed)
        · rw [if_pos hf] at herr
          by_cases hg : st.drillSpeed ≠ 0
          · exact ⟨hc, hd, hf.1, hf.2, hg⟩
          · rw [if_neg hg] at herr; exact absurd herr (by simp)
        · rw [if_neg hf] at herr; exact absurd herr (by simp)
      · rw [if_neg hd] at herr
        by_cases hup : (m.x = st.lastx ∧ m.y = st.lasty ∧ st.lastz < 0 ∧ m.z ≥ 0)
        · rw [if_pos hup] at herr; exact absurd herr (by simp)
        · rw [if_neg hup] at herr; exact absurd herr (by simp)
  · rintro ⟨hc, hd, hmode, hfeed, hds⟩
    unfold groupStep
    rw [if_neg hc, if_pos hd, if_pos ⟨hmode, hfeed⟩, if_pos hds]

/-- C2 witness: with recorded drill feedrate 100, a later plunge at
feedrate 150 makes the scan abort with the multiple-feedrate error, and
the corresponding 100-then-150 toolpath leaves its machine unchanged. -/
theorem C2_feedrate_ambiguity_witness :
    groupStep { GState0 with lastx := 2, lasty := 0, lastz := 5, drillSpeed := 100,
                             sequenceStarted := true }
        (mkPos 2 0 (-1) moveModeLinear 150) = .error .multipleDrillFeedrates ∧
    (Machine.OptRouteGrouping { posStack := routeStack100First, tolerance := 1 }).1 =
      { posStack := routeStack100First, tolerance := 1 } := by
  have h := C2_feedrate_ambiguity
    { GState0 with lastx := 2, lasty := 0, lastz := 5, drillSpeed := 100, sequenceStarted := true }
    (mkPos 2 0 (-1) moveModeLinear 150)
    { posStack := routeStack100First, tolerance := 1 }
    .multipleDrillFeedrates (by decide)
  exact ⟨h.1.mpr (by decide), h.2⟩

/-! ## Claim C8 — redundant-segment collapse -/

/-- The stored zero direction never matches any displacement (its dot
product term is zero, and the source's stored unit vector starts as the
zero vector, which equals no unit vector). -/
theorem sameDir_zero_left (b : ℚ × ℚ × ℚ) : sameDir (0, 0, 0) b = false := by
  simp [sameDir]

/-- A displacement with the same direction as a recorded one is nonzero
(in the source's x-z-y test order). -/
theorem sameDir_ne_zero (a b : ℚ × ℚ × ℚ) (h : sameDir a b = true) :
    ¬(b.1 = 0 ∧ b.2.2 = 0 ∧ b.2.1 = 0) := by
  rintro ⟨h1, h2, h3⟩
  simp [sameDir, h1, h2, h3] at h

/-- Step equation: an opaque-mode move is appended untouched. -/
theorem bogusStep_other (pos lastvec : ℚ × ℚ × ℚ) (npos : List Position) (m : Position)
    (rest : List Position)
    (hmode : ¬(m.state.moveMode = moveModeRapid ∨ m.state.moveMode = moveModeLinear)) :
    optBogusGo pos lastvec npos (m :: rest) =
      optBogusGo (m.x, m.y, m.z) lastvec (npos ++ [m]) rest := by
  have hm : m.state.moveMode ≠ moveModeRapid ∧ m.state.moveMode ≠ moveModeLinear := by
    constructor <;> intro hx <;> exact hmode (by simp [hx])
  simp only [optBogusGo]
  rw [if_pos hm]

/-- Step equation: a zero displacement is dropped. -/
theorem bogusStep_zero (pos lastvec : ℚ × ℚ × ℚ) (npos : List Position) (m : Position)
    (rest : List Position)
    (hmode : m.state.moveMode = moveModeRapid ∨ m.state.moveMode = moveModeLinear)
    (h0 : m.x - pos.1 = 0 ∧ m.z - pos.2.2 = 0 ∧ m.y - pos.2.1 = 0) :
    optBogusGo pos lastvec npos (m :: rest) = optBogusGo (m.x, m.y, m.z) lastvec npos rest := by
  have hnot : ¬(m.state.moveMode ≠ moveModeRapid ∧ m.state.moveMode ≠ moveModeLinear) := by
    rcases hmode with h | h <;> simp [h]
  simp only [optBogusGo]
  rw [if_neg hnot, if_pos h0]

/-- Step equation: a displacement in the recorded direction overwrites the
whole previously emitted record with the new move, leaving the recorded
direction as it was. -/
theorem bogusStep_same (pos lastvec : ℚ × ℚ × ℚ) (npos : List Position) (m : Position)
    (rest : List Position)
    (hmode : m.state.moveMode = moveModeRapid ∨ m.state.moveMode = moveModeLinear)
    (h0 : ¬(m.x - pos.1 = 0 ∧ m.z - pos.2.2 = 0 ∧ m.y - pos.2.1 = 0))
    (hs : sameDir lastvec (m.x - pos.1, m.y - pos.2.1, m.z - pos.2.2) = true) :
    optBogusGo pos lastvec npos (m :: rest) =
      optBogusGo (m.x, m.y, m.z) lastvec (npos.dropLast ++ [m]) rest := by
  have hnot : ¬(m.state.moveMode ≠ moveModeRapid ∧ m.state.moveMode ≠ moveModeLinear) := by
    rcases hmode with h | h <;> simp [h]
  simp only [optBogusGo]
  rw [if_neg hnot, if_neg h0, if_pos hs]

/-- Step equation: a displacement in a new direction is appended and its
direction recorded. -/
theorem bogusStep_new (pos lastvec : ℚ × ℚ × ℚ) (npos : List Position) (m : Position)
    (rest : List Position)
    (hmode : m.state.moveMode = moveModeRapid ∨ m.state.moveMode = moveModeLinear)
    (h0 : ¬(m.x - pos.1 = 0 ∧ m.z - pos.2.2 = 0 ∧ m.y - pos.2.1 = 0))
    (hs : sameDir lastvec (m.x - pos.1, m.y - pos.2.1, m.z - pos.2.2) = false) :
    optBogusGo pos lastvec npos (m :: rest) =
      optBogusGo (m.x, m.y, m.z) (m.x - pos.1, m.y - pos.2.1, m.z - pos.2.2) (npos ++ [m]) rest := by
  have hnot : ¬(m.state.moveMode ≠ moveModeRapid ∧ m.state.moveMode ≠ moveModeLinear) := by
    rcases hmode with h | h <;> simp [h]
  have hs2 : ¬(sameDir lastvec (m.x - pos.1, m.y - pos.2.1, m.z - pos.2.2) = true) := by
    simp [hs]
  simp only [optBogusGo]
  rw [if_neg hnot, if_neg h0, if_neg hs2]

/-- C8 counterexample: after a rapid move to (1,0,0), a colinear linear
move to (2,0,0) replaces the whole previously emitted record — the
survivor carries the linear mode and feedrate 100 of the new move, not the
original rapid record with only its target updated, refuting the
"target is replaced" reading. -/
theorem C8_cex_whole_record_replacement :
    OptBogusMoves [mkPos 1 0 0 moveModeRapid 0, mkPos 2 0 0 moveModeLinear 100] =
      [mkPos 2 0 0 moveModeLinear 100] ∧
    OptBogusMoves [mkPos 1 0 0 moveModeRapid 0, mkPos 2 0 0 moveModeLinear 100] ≠
      [{ mkPos 1 0 0 moveModeRapid 0 with x := 2 }] ∧
    (mkPos 2 0 0 moveModeLinear 100).state.moveMode ≠
      (mkPos 1 0 0 moveModeRapid 0).state.moveMode := by
  have h1 : OptBogusMoves [mkPos 1 0 0 moveModeRapid 0, mkPos 2 0 0 moveModeLinear 100] =
      [mkPos 2 0 0 moveModeLinear 100] := by
    norm_num [OptBogusMoves, optBogusGo, sameDir, mkPos]
  refine ⟨h1, ?_, by decide⟩
  rw [h1]
  decide

/-- C8 (corrected): the per-move behaviour of `OptBogusMoves` — opaque
modes pass through; a zero displacement is dropped; a displacement whose
exact unit vector equals the recorded one makes the move overwrite the
whole previously emitted record (its mode, feedrate and spindle state
included), with the recorded direction kept; otherwise the move is
appended and its direction recorded.  Consequently three chained moves in
one exact direction collapse into the single last record. -/
theorem C8_segment_collapse :
    (∀ (pos lastvec : ℚ × ℚ × ℚ) (npos : List Position) (m : Position) (rest : List Position),
      (m.state.moveMode = moveModeRapid ∨ m.state.moveMode = moveModeLinear) →
      ((m.x - pos.1 = 0 ∧ m.z - pos.2.2 = 0 ∧ m.y - pos.2.1 = 0) →
         optBogusGo pos lastvec npos (m :: rest) =
           optBogusGo (m.x, m.y, m.z) lastvec npos rest) ∧
      (¬(m.x - pos.1 = 0 ∧ m.z - pos.2.2 = 0 ∧ m.y - pos.2.1 = 0) →
        (sameDir lastvec (m.x - pos.1, m.y - pos.2.1, m.z - pos.2.2) = true →
           optBogusGo pos lastvec npos (m :: rest) =
             optBogusGo (m.x, m.y, m.z) lastvec (npos.dropLast ++ [m]) rest) ∧
        (sameDir lastvec (m.x - pos.1, m.y - pos.2.1, m.z - pos.2.2) = false →
           optBogusGo pos lastvec npos (m :: rest) =
             optBogusGo (m.x, m.y, m.z) (m.x - pos.1, m.y - pos.2.1, m.z - pos.2.2)
               (npos ++ [m]) rest))) ∧
    (∀ m1 m2 m3 : Position,
      (m1.state.moveMode = moveModeRapid ∨ m1.state.moveMode = moveModeLinear) →
      (m2.state.moveMode = moveModeRapid ∨ m2.state.moveMode = moveModeLinear) →
      (m3.state.moveMode = moveModeRapid ∨ m3.state.moveMode = moveModeLinear) →
      ¬(m1.x = 0 ∧ m1.z = 0 ∧ m1.y = 0) →
      sameDir (m1.x, m1.y, m1.z) (m2.x - m1.x, m2.y - m1.y, m2.z - m1.z) = true →
      sameDir (m1.x, m1.y, m1.z) (m3.x - m2.x, m3.y - m2.y, m3.z - m2.z) = true →
      OptBogusMoves [m1, m2, m3] = [m3]) := by
  constructor
  · intro pos lastvec npos m rest hmode
    exact ⟨fun h0 => bogusStep_zero pos lastvec npos m rest hmode h0,
      fun h0 => ⟨fun hs => bogusStep_same pos lastvec npos m rest hmode h0 hs,
        fun hs => bogusStep_new pos lastvec npos m rest hmode h0 hs⟩⟩
  · intro m1 m2 m3 hm1 hm2 hm3 h0 h12 h13
    have e1 : ((m1.x - 0, m1.y - 0, m1.z - 0) : ℚ × ℚ × ℚ) = (m1.x, m1.y, m1.z) := by
      simp
    have g1 : OptBogusMoves [m1, m2, m3] =
        optBogusGo (m1.x, m1.y, m1.z) (m1.x - 0, m1.y - 0, m1.z - 0) [m1] [m2, m3] :=
      bogusStep_new (0, 0, 0) (0, 0, 0) [] m1 [m2, m3] hm1 (by simpa using h0)
        (sameDir_zero_left _)
    rw [e1] at g1
    have g2 : optBogusGo (m1.x, m1.y, m1.z) (m1.x, m1.y, m1.z) [m1] [m2, m3] =
        optBogusGo (m2.x, m2.y, m2.z) (m1.x, m1.y, m1.z) [m2] [m3] :=
      bogusStep_same (m1.x, m1.y, m1.z) (m1.x, m1.y, m1.z) [m1] m2 [m3] hm2
        (sameDir_ne_zero _ _ h12) h12
    have g3 : optBogusGo (m2.x, m2.y, m2.z) (m1.x, m1.y, m1.z) [m2] [m3] = [m3] :=
      bogusStep_same (m2.x, m2.y, m2.z) (m1.x, m1.y, m1.z) [m2] m3 [] hm3
        (sameDir_ne_zero _ _ h13) h13
    exact g1.trans (g2.trans g3)

/-- C8 witness: three colinear linear moves along the x axis collapse into
the single last record, and a zero-displacement move is dropped. -/
theorem C8_segment_collapse_witness :
    OptBogusMoves [mkPos 1 0 0 moveModeLinear 100, mkPos 2 0 0 moveModeLinear 100,
        mkPos 3 0 0 moveModeLinear 100] = [mkPos 3 0 0 moveModeLinear 100] ∧
    optBogusGo (0, 0, 0) (0, 0, 0) [] (mkPos 0 0 0 moveModeLinear 100 :: []) =
      optBogusGo (0, 0, 0) (0, 0, 0) [] [] := by
  constructor
  · exact C8_segment_collapse.2 (mkPos 1 0 0 moveModeLinear 100)
      (mkPos 2 0 0 moveModeLinear 100) (mkPos 3 0 0 moveModeLinear 100)
      (by decide) (by decide) (by decide) (by decide)
      (by norm_num [sameDir, mkPos]) (by norm_num [sameDir, mkPos])
  · have h := (C8_segment_collapse.1 (0, 0, 0) (0, 0, 0) []
      (mkPos 0 0 0 moveModeLinear 100) [] (by decide)).1 (by norm_num [mkPos])
    simpa [mkPos] using h

/-! ## Claim C5 — safety-height detection and enforcement -/

/-- The source's running-maximum update is `max`. -/
theorem ifMaxEq (a z : ℚ) : (if z > a then z else a) = max a z := by
  rcases le_or_lt z a with h | h
  · rw [if_neg (not_lt.mpr h), max_eq_left h]
  · rw [if_pos h, max_eq_right h.le]

/-- The running-maximum fold in `max` form. -/
def foldMaxZ (l : List Position) (mx : ℚ) : ℚ :=
  l.foldl (fun a m => max a m.z) mx

/-- The fold collecting the largest z value strictly below `T`. -/
def condFoldZ (T : ℚ) (l : List Position) (a : ℚ) : ℚ :=
  l.foldl (fun acc m => if m.z < T then max acc m.z else acc) a

theorem maxzOf_eq_foldMaxZ (stack : List Position) : maxzOf stack = foldMaxZ stack 0 := by
  unfold maxzOf foldMaxZ
  congr 1
  funext a m
  exact ifMaxEq a m.z

theorem lowerFeedHeight_eq_condFoldZ (stack : List Position) :
    lowerFeedHeight stack = condFoldZ (maxzOf stack) stack 0 := by
  unfold lowerFeedHeight condFoldZ
  congr 1
  funext a m
  by_cases h1 : m.z < maxzOf stack
  · by_cases h2 : m.z > a
    · rw [if_pos ⟨h1, h2⟩, if_pos h1, max_eq_right h2.le]
    · rw [if_neg (fun hc => h2 hc.2), if_pos h1, max_eq_left (not_lt.mp h2)]
  · rw [if_neg (fun hc => h1 hc.1), if_neg h1]

theorem le_foldMaxZ (l : List Position) : ∀ a : ℚ, a ≤ foldMaxZ l a := by
  induction l with
  | nil => intro a; simp [foldMaxZ]
  | cons m t ih =>
    intro a
    have h3 : foldMaxZ (m :: t) a = foldMaxZ t (max a m.z) := rfl
    rw [h3]
    exact (le_max_left a m.z).trans (ih (max a m.z))

/-- Scan step when a new maximum appears: the old maximum becomes the
lower feed height (the old lower candidate is discarded — sound because
the scan keeps `nextz ≤ maxz`). -/
theorem maxNextStep_gt (mn : ℚ × ℚ) (m : Position) (h : m.z > mn.1) :
    maxNextStep mn m = (m.z, mn.1) := by
  have hne : ¬(m.z > mn.1 ∧ m.z < m.z) := fun hc => lt_irrefl _ hc.2
  show (let a := if m.z > mn.1 then ((m.z, mn.1) : ℚ × ℚ) else mn;
        if m.z > a.2 ∧ m.z < a.1 then (a.1, m.z) else a) = (m.z, mn.1)
  rw [if_pos h]
  exact if_neg hne

/-- Scan step without a new maximum: only `nextz` may rise, to a value
strictly between it and the maximum. -/
theorem maxNextStep_le (mn : ℚ × ℚ) (m : Position) (h : ¬(m.z > mn.1)) :
    maxNextStep mn m = (mn.1, if m.z > mn.2 ∧ m.z < mn.1 then m.z else mn.2) := by
  show (let a := if m.z > mn.1 then ((m.z, mn.1) : ℚ × ℚ) else mn;
        if m.z > a.2 ∧ m.z < a.1 then (a.1, m.z) else a) = _
  rw [if_neg h]
  by_cases hc : m.z > mn.2 ∧ m.z < mn.1
  · rw [if_pos hc, if_pos hc]
  · rw [if_neg hc, if_neg hc]

/-- Characterization of the whole detection scan: starting from
`(mx, nx)` with `nx ≤ mx`, the first component is the running maximum and
the second is the largest value strictly below that final maximum, seeded
with the start values. -/
theorem maxNextScan_eq (l : List Position) : ∀ mx nx : ℚ, nx ≤ mx →
    maxNextScan (mx, nx) l =
      (foldMaxZ l mx,
       condFoldZ (foldMaxZ l mx) l (if mx < foldMaxZ l mx then max nx mx else nx)) := by
  induction l with
  | nil =>
    intro mx nx h
    simp [maxNextScan, foldMaxZ, condFoldZ, lt_irrefl]
  | cons m t ih =>
    intro mx nx h
    have hscan : maxNextScan (mx, nx) (m :: t) = maxNextScan (maxNextStep (mx, nx) m) t := rfl
    have hF : foldMaxZ (m :: t) mx = foldMaxZ t (max mx m.z) := rfl
    have hcons : ∀ T a, condFoldZ T (m :: t) a =
        condFoldZ T t (if m.z < T then max a m.z else a) := fun T a => rfl
    by_cases hz : m.z > mx
    · have hmax : max mx m.z = m.z := max_eq_right hz.le
      have hTz : m.z ≤ foldMaxZ t m.z := le_foldMaxZ t m.z
      rw [hscan, maxNextStep_gt (mx, nx) m hz, ih m.z mx hz.le, hF, hmax, hcons]
      have hinit : (if m.z < foldMaxZ t m.z then m.z else mx)
          = (if m.z < foldMaxZ t m.z
             then max (if mx < foldMaxZ t m.z then max nx mx else nx) m.z
             else (if mx < foldMaxZ t m.z then max nx mx else nx)) := by
        by_cases hlt : m.z < foldMaxZ t m.z
        · have hmxT : mx < foldMaxZ t m.z := hz.trans hlt
          rw [if_pos hlt, if_pos hlt, if_pos hmxT, max_eq_right h, max_eq_right hz.le]
        · have hmxT : mx < foldMaxZ t m.z := (le_antisymm hTz (not_lt.mp hlt)) ▸ hz
          rw [if_neg hlt, if_neg hlt, if_pos hmxT, max_eq_right h]
      rw [hinit]
    · have hzle : m.z ≤ mx := not_lt.mp hz
      have hmax : max mx m.z = mx := max_eq_left hzle
      set nx2 := if m.z > nx ∧ m.z < mx then m.z else nx with hnx2def
      have hnx2le : nx2 ≤ mx := by
        rw [hnx2def]
        by_cases hc : m.z > nx ∧ m.z < mx
        · rw [if_pos hc]; exact hc.2.le
        · rw [if_neg hc]; exact h
      rw [hscan, maxNextStep_le (mx, nx) m hz, ih mx nx2 hnx2le, hF, hmax, hcons]
      have hmxT : mx ≤ foldMaxZ t mx := le_foldMaxZ t mx
      have hinit : (if mx < foldMaxZ t mx then max nx2 mx else nx2)
          = (if m.z < foldMaxZ t mx
             then max (if mx < foldMaxZ t mx then max nx mx else nx) m.z
             else (if mx < foldMaxZ t mx then max nx mx else nx)) := by
        by_cases hzmx : m.z < mx
        · have hzT : m.z < foldMaxZ t mx := hzmx.trans_le hmxT
          have hnx2eq : nx2 = max nx m.z := by
            rw [hnx2def]
            by_cases hc : nx < m.z
            · rw [if_pos ⟨hc, hzmx⟩, max_eq_right hc.le]
            · rw [if_neg (fun hk => hc hk.1), max_eq_left (not_lt.mp hc)]
          by_cases hmxlt : mx < foldMaxZ t mx
          · rw [if_pos hmxlt, if_pos hzT, if_pos hmxlt, hnx2eq, max_eq_right h,
              max_assoc, max_comm m.z mx]
            exact max_eq_right (h.trans (le_max_left mx m.z))
          · rw [if_neg hmxlt, if_pos hzT, if_neg hmxlt, hnx2eq]
        · have hnx2eq : nx2 = nx := by
            rw [hnx2def, if_neg (fun hc => hzmx hc.2)]
          have hzm : m.z = mx := le_antisymm hzle (not_lt.mp hzmx)
          by_cases hmxlt : mx < foldMaxZ t mx
          · have hzT : m.z < foldMaxZ t mx := hzm ▸ hmxlt
            rw [if_pos hmxlt, if_pos hzT, if_pos hmxlt, hnx2eq, hzm, max_assoc, max_self]
          · have hzT : ¬(m.z < foldMaxZ t mx) := by rw [hzm]; exact hmxlt
            rw [if_neg hmxlt, if_neg hzT, if_neg hmxlt, hnx2eq]
      rw [hinit]

/-- The scan from the zero start values yields the path maximum and the
largest z strictly below it, with 0 as an implicit candidate. -/
theorem maxNextScan_zero (stack : List Position) :
    maxNextScan (0, 0) stack = (maxzOf stack, lowerFeedHeight stack) := by
  rw [maxNextScan_eq stack 0 0 le_rfl, maxzOf_eq_foldMaxZ, lowerFeedHeight_eq_condFoldZ,
    maxzOf_eq_foldMaxZ]
  congr 1
  by_cases h0 : (0 : ℚ) < foldMaxZ stack 0
  · rw [if_pos h0, max_self]
  · rw [if_neg h0]

/-- The rewrite loop preserves the stack length. -/
theorem applySafetyHeight_length (h M : ℚ) :
    ∀ (l : List Position) (lp : ℚ × ℚ), (applySafetyHeight h M lp l).length = l.length := by
  intro l
  induction l with
  | nil => intro lp; rfl
  | cons m t ih =>
    intro lp
    simp only [applySafetyHeight, List.length_cons, ih]

/-- The x/y pair preceding index `i`, seeded with `lp` for index 0 (and
for an out-of-range predecessor, where the record itself is also absent).
Instantiated with the zero seed it is the `lastx`/`lasty` pair the source's
rewrite loop carries. -/
def priorXYFrom (lp : ℚ × ℚ) (l : List Position) : Nat → ℚ × ℚ
  | 0 => lp
  | j + 1 =>
    match l.get? j with
    | some p => (p.x, p.y)
    | none => lp

/-- Indexwise behaviour of the rewrite loop: record `i` is rewritten to the
new height exactly when its x/y both equal the preceding record's (the
seed pair for index 0) and its z is the detected maximum. -/
theorem applySafetyHeight_get? (h M : ℚ) :
    ∀ (l : List Position) (lp : ℚ × ℚ) (i : Nat),
      (applySafetyHeight h M lp l).get? i =
        (l.get? i).map fun m =>
          if (priorXYFrom lp l i).1 = m.x ∧ (priorXYFrom lp l i).2 = m.y ∧ m.z = M
          then { m with z := h } else m := by
  intro l
  induction l with
  | nil =>
    intro lp i
    cases i <;> rfl
  | cons m t ih =>
    intro lp i
    match i with
    | 0 => rfl
    | Nat.succ j =>
      have hl : (applySafetyHeight h M lp (m :: t)).get? (j + 1) =
          (applySafetyHeight h M (m.x, m.y) t).get? j := rfl
      rw [hl, ih (m.x, m.y) j]
      cases j with
      | zero => rfl
      | succ k =>
        cases htk : t.get? k with
        | some p =>
          have e1 : priorXYFrom (m.x, m.y) t (k + 1) = (p.x, p.y) := by
            simp only [priorXYFrom, htk]
          have e2 : priorXYFrom lp (m :: t) (k + 2) = (p.x, p.y) := by
            simp only [priorXYFrom, List.get?_cons_succ, htk]
          rw [e1, e2, List.get?_cons_succ]
        | none =>
          have h2 : t.get? (k + 1) = none := by
            rw [List.get?_eq_none] at htk ⊢
            omega
          rw [List.get?_cons_succ, h2]
          rfl

/-- C5 (corrected): `SetSafetyHeight` rejects exactly the heights at or
below the scan's lower feed height — which is the largest of 0 and every z
value strictly below the path maximum (0 is an implicit candidate because
the scan starts at the float zero values) — naming that height in the
error; on success every record whose x/y both equal the preceding record's
(the zero pair seeding index 0) and whose z equals the old maximum has its
z rewritten to the requested height, and every other record is returned
unchanged. -/
theorem C5_safety_height (stack : List Position) (height : ℚ) :
    (errOf (SetSafetyHeightStack stack height) =
       if height ≤ lowerFeedHeight stack
       then some (OptError.safetyHeightConflict (lowerFeedHeight stack)) else none) ∧
    (∀ out, SetSafetyHeightStack stack height = .ok out →
       out.length = stack.length ∧
       ∀ i : Nat, out.get? i =
         (stack.get? i).map fun m =>
           if (priorXYFrom (0, 0) stack i).1 = m.x ∧ (priorXYFrom (0, 0) stack i).2 = m.y ∧
              m.z = maxzOf stack
           then { m with z := height } else m) := by
  have hmn : maxNextScan (0, 0) stack = (maxzOf stack, lowerFeedHeight stack) :=
    maxNextScan_zero stack
  have herr : height ≤ lowerFeedHeight stack →
      SetSafetyHeightStack stack height =
        .error (.safetyHeightConflict (lowerFeedHeight stack)) := by
    intro hle
    unfold SetSafetyHeightStack
    rw [hmn]
    exact if_pos hle
  have hok : ¬(height ≤ lowerFeedHeight stack) →
      SetSafetyHeightStack stack height =
        .ok (applySafetyHeight height (maxzOf stack) (0, 0) stack) := by
    intro hgt
    unfold SetSafetyHeightStack
    rw [hmn]
    exact if_neg hgt
  constructor
  · by_cases hle : height ≤ lowerFeedHeight stack
    · rw [herr hle, if_pos hle]; rfl
    · rw [hok hle, if_neg hle]; rfl
  · intro out hout
    by_cases hle : height ≤ lowerFeedHeight stack
    · rw [herr hle] at hout
      exact absurd hout (by simp)
    · rw [hok hle] at hout
      have hxeq : applySafetyHeight height (maxzOf stack) (0, 0) stack = out := by
        injection hout
      refine ⟨?_, ?_⟩
      · rw [← hxeq]
        exact applySafetyHeight_length height (maxzOf stack) stack (0, 0)
      · intro i
        rw [← hxeq]
        exact applySafetyHeight_get? height (maxzOf stack) stack (0, 0) i

/-- The spec's safety-height example: maxima 5 (dominant) and 2
(next-highest). -/
def shEx : List Position :=
  [ mkPos 0 0 0 moveModeRapid 0, mkPos 0 0 5 moveModeRapid 0, mkPos 1 0 5 moveModeRapid 0,
    mkPos 1 0 2 moveModeLinear 100, mkPos 1 0 5 moveModeRapid 0, mkPos 0 0 5 moveModeRapid 0 ]

/-- `shEx` after a successful override to height 3: the two records at the
old maximum reached without x/y motion are rewritten. -/
def shExOut : List Position :=
  [ mkPos 0 0 0 moveModeRapid 0, mkPos 0 0 3 moveModeRapid 0, mkPos 1 0 5 moveModeRapid 0,
    mkPos 1 0 2 moveModeLinear 100, mkPos 1 0 3 moveModeRapid 0, mkPos 0 0 5 moveModeRapid 0 ]

/-- C5 witness: on the spec's example, requesting height 1 fails naming the
lower feed height 2, and requesting height 3 rewrites exactly the
unchanged-x/y maximum records. -/
theorem C5_safety_height_witness :
    errOf (SetSafetyHeightStack shEx 1) = some (OptError.safetyHeightConflict 2) ∧
    shExOut.length = shEx.length ∧
    shExOut.get? 4 = (shEx.get? 4).map (fun m =>
      if (priorXYFrom (0, 0) shEx 4).1 = m.x ∧ (priorXYFrom (0, 0) shEx 4).2 = m.y ∧
         m.z = maxzOf shEx
      then { m with z := 3 } else m) := by
  have h1 := (C5_safety_height shEx 1).1
  have h2 := (C5_safety_height shEx 3).2 shExOut (by rfl)
  refine ⟨?_, h2.1, h2.2 4⟩
  rw [h1, if_pos (by decide)]
  decide

/-- C5 counterexample: on a path whose maximum z is 5 and whose only other
z value is -1, the next-highest z below the maximum is -1 and the request
0 strictly clears it, yet the code rejects the request (naming 0, the
scan's zero floor, as the conflicting height) — so "exactly when the
requested height does not clear the next-highest distinct z below the
maximum" fails as stated. -/
theorem C5_cex_zero_floor :
    (∀ m ∈ shCexStack, m.z ≤ 5) ∧ (∃ m ∈ shCexStack, m.z = 5) ∧
    (∀ m ∈ shCexStack, m.z ≠ 5 → m.z ≤ -1) ∧ (∃ m ∈ shCexStack, m.z = -1) ∧
    ((-1 : ℚ) < 0) ∧
    errOf (SetSafetyHeightStack shCexStack 0) = some (OptError.safetyHeightConflict 0) := by
  decide

/-! ## Claim C1 — route grouping preserves the head and the group interiors -/

/-- Invariant preservation along a left fold computing an index. -/
theorem foldl_preserve {α : Type} (P : Nat → Prop) (f : Nat → α → Nat) :
    ∀ (l : List α) (b : Nat), P b → (∀ c a, P c → a ∈ l → P (f c a)) → P (l.foldl f b) := by
  intro l
  induction l with
  | nil => intro b hb _; exact hb
  | cons a t ih =>
    intro b hb hf
    exact ih (f b a) (hf b a hb (List.mem_cons_self a t))
      (fun c x hc hx => hf c x hc (List.mem_cons_of_mem a hx))

/-- The selection loop returns an index of the group list. -/
theorem argminIdx_lt (cur : ℚ × ℚ × ℚ) (sets : List (List Position)) (h : sets ≠ []) :
    argminIdx cur sets < sets.length := by
  unfold argminIdx
  refine foldl_preserve (fun b => b < sets.length) _ (List.range sets.length) 0
    (List.length_pos.mpr h) ?_
  intro c a hc ha
  show (if sqDist cur (setHeadD (sets.getD a [])) < sqDist cur (setHeadD (sets.getD c []))
        then a else c) < sets.length
  split_ifs
  · exact List.mem_range.mp ha
  · exact hc

/-- A member of a list is the element at any given index or a member of
the list with that index removed. -/
theorem mem_get_or_mem_eraseIdx {α : Type} (l : List α) :
    ∀ (i : Nat) (h : i < l.length) (a : α), a ∈ l →
      a = l.get ⟨i, h⟩ ∨ a ∈ l.eraseIdx i := by
  induction l with
  | nil => intro i h a _; exact absurd h (by simp)
  | cons b t ih =>
    intro i h a ha
    cases i with
    | zero =>
      rcases List.mem_cons.mp ha with h1 | h1
      · exact Or.inl h1
      · exact Or.inr (by simpa using h1)
    | succ j =>
      rcases List.mem_cons.mp ha with h1 | h1
      · exact Or.inr (by simp [List.eraseIdx_cons_succ, h1])
      · rcases ih j (by simpa using h) a h1 with h2 | h2
        · exact Or.inl (by simpa using h2)
        · exact Or.inr (by simp [List.eraseIdx_cons_succ, h2])

/-- Every group survives the nearest-neighbor reordering (given enough
fuel, which the caller supplies as the group count). -/
theorem mem_nnSortFuel (g : List Position) :
    ∀ (fuel : Nat) (cur : ℚ × ℚ × ℚ) (sets : List (List Position)),
      sets.length ≤ fuel → g ∈ sets → g ∈ nnSortFuel fuel cur sets := by
  intro fuel
  induction fuel with
  | zero =>
    intro cur sets hlen hg
    have hnil : sets = [] := List.length_eq_zero.mp (Nat.le_zero.mp hlen)
    subst hnil
    simp at hg
  | succ n ih =>
    intro cur sets hlen hg
    match sets, hg with
    | s0 :: srest, hg =>
      have hne : (s0 :: srest) ≠ [] := by simp
      have hi : argminIdx cur (s0 :: srest) < (s0 :: srest).length :=
        argminIdx_lt cur _ hne
      simp only [nnSortFuel]
      rw [List.mem_cons]
      rcases mem_get_or_mem_eraseIdx (s0 :: srest) (argminIdx cur (s0 :: srest)) hi g hg
        with h1 | h1
      · refine Or.inl (by rw [h1]; simp [List.getD_eq_getElem _ _ hi, List.get_eq_getElem, List.getElem?_eq_getElem hi])
      · refine Or.inr (ih _ _ ?_ h1)
        rw [List.length_eraseIdx_of_lt hi]
        omega

/-- Every group's interior (everything after its first member) is kept
verbatim and contiguous by the reconstruction loop. -/
theorem rebuild_interior_infix (tol sh ds : ℚ) :
    ∀ (sets : List (List Position)) (cur : Position) (g : List Position), g ∈ sets →
      ∃ pre post, rebuild tol sh ds cur sets = pre ++ g.drop 1 ++ post := by
  intro sets
  induction sets with
  | nil => intro cur g hg; simp at hg
  | cons s rest ih =>
    intro cur g hg
    cases s with
    | nil =>
      have hr : rebuild tol sh ds cur ([] :: rest) = rebuild tol sh ds cur rest := rfl
      rcases List.mem_cons.mp hg with h1 | h1
      · subst h1
        exact ⟨[], rebuild tol sh ds cur rest, by simp [hr]⟩
      · obtain ⟨pre, post, hpp⟩ := ih cur g h1
        exact ⟨pre, post, by rw [hr, hpp]⟩
    | cons p ps =>
      have hr : rebuild tol sh ds cur ((p :: ps) :: rest) =
          (moveToMoves tol sh ds cur p ++ ps) ++
            rebuild tol sh ds ((moveToMoves tol sh ds cur p ++ ps).getLastD cur) rest := rfl
      rcases List.mem_cons.mp hg with h1 | h1
      · subst h1
        refine ⟨moveToMoves tol sh ds cur p,
          rebuild tol sh ds ((moveToMoves tol sh ds cur p ++ ps).getLastD cur) rest, ?_⟩
        rw [hr]
        simp [List.append_assoc]
      · obtain ⟨pre, post, hpp⟩ := ih _ g h1
        refine ⟨(moveToMoves tol sh ds cur p ++ ps) ++ pre, post, ?_⟩
        rw [hr, hpp]
        simp [List.append_assoc]

/-- C1 (confirmed): when `OptRouteGrouping` succeeds, the head of the
output is the unchanged first record of the input, and for every group of
the scan's partition all its members after the first appear in the output
verbatim, contiguously and in their original order (as a factor
`pre ++ interior ++ post` of the output). -/
theorem C1_route_grouping (tol : ℚ) (stack out : List Position)
    (hok : OptRouteGroupingStack tol stack = .ok out) :
    out.head? = stack.head? ∧
    ∃ st, groupScan GState0 stack = .ok st ∧
      ∀ g ∈ st.sets, ∃ pre post, out = pre ++ g.drop 1 ++ post := by
  unfold OptRouteGroupingStack at hok
  cases hscan : groupScan GState0 stack with
  | error e => rw [hscan] at hok; exact absurd hok (by simp)
  | ok st =>
    rw [hscan] at hok
    dsimp only at hok
    by_cases hsh : st.safetyHeight = 0
    · rw [if_pos hsh] at hok; exact absurd hok (by simp)
    rw [if_neg hsh] at hok
    by_cases hds : st.drillSpeed = 0
    · rw [if_pos hds] at hok; exact absurd hok (by simp)
    rw [if_neg hds] at hok
    cases hfc : finalCheck st with
    | some e => rw [hfc] at hok; exact absurd hok (by simp)
    | none =>
      rw [hfc] at hok
      dsimp only at hok
      by_cases hall : st.sets.all (fun s => !s.isEmpty) = true
      · rw [if_pos hall] at hok
        cases stack with
        | nil => exact absurd hok (by simp)
        | cons h0 t =>
          have hout : out = h0 :: rebuild tol st.safetyHeight st.drillSpeed h0
              (nnSortFuel st.sets.length (0, 0, 0) st.sets) := by
            injection hok with h
            exact h.symm
          refine ⟨by rw [hout]; rfl, st, rfl, ?_⟩
          intro g hg
          have hmem : g ∈ nnSortFuel st.sets.length (0, 0, 0) st.sets :=
            mem_nnSortFuel g st.sets.length (0, 0, 0) st.sets le_rfl hg
          obtain ⟨pre, post, hpp⟩ :=
            rebuild_interior_infix tol st.safetyHeight st.drillSpeed _ h0 g hmem
          exact ⟨h0 :: pre, post, by rw [hout, hpp]; rfl⟩
      · rw [if_neg hall] at hok; exact absurd hok (by simp)

/-- The output of `OptRouteGrouping` on `routeStack150First` with
tolerance 1. -/
def routeOut150 : List Position :=
  [ mkPos 0 0 0 moveModeRapid 0,
    mkPos 0 0 5 moveModeRapid 0,
    mkPos 1 0 5 moveModeRapid 0,
    mkPos 1 0 (-1) moveModeLinear 150,
    mkPos 1 0 (-1) moveModeLinear 150,
    mkPos 1 0 5 moveModeRapid 150,
    mkPos 2 0 5 moveModeRapid 150,
    mkPos 2 0 5 moveModeLinear 150,
    mkPos 2 0 (-1) moveModeLinear 100,
    mkPos 2 0 (-1) moveModeLinear 100 ]

/-- C1 witness: a concrete successful run with the preserved head. -/
theorem C1_route_grouping_witness :
    OptRouteGroupingStack 1 routeStack150First = .ok routeOut150 ∧
    routeOut150.head? = routeStack150First.head? := by
  have hok : OptRouteGroupingStack 1 routeStack150First = .ok routeOut150 := by
    norm_num [OptRouteGroupingStack, groupScan, groupStep, GState0, updLast, finalCheck,
      nnSortFuel, argminIdx, sqDist, setHeadD, nullPos, mkPos, rebuild, moveToMoves,
      routeStack150First, routeOut150, List.range_succ, List.eraseIdx, List.getD,
      List.headD, List.getLastD, List.all]
  exact ⟨hok, (C1_route_grouping 1 routeStack150First routeOut150 hok).1⟩
